import Mathlib

/-!
Trace-event recorder (`base/tracing.h`, `base/tracing.cc`)

A shallow embedding of the `TraceEvent` / `Tracer` pair and of the
`TRACE_EVENT` / `ScopedTraceEvent` / `SCOPED_TRACE` helpers, followed by the
properties established about them.

Modelling conventions

* `std::string` is a Lean `String`, `char` a Lean `Char`.
* `int64_t` and `int` values are `Int`s; conversions that can wrap
  (`int` printed with `%u`, `size_t` narrowed to `int`) are written out with
  an explicit modulus.
* `std::ofstream fp_` is the list of chunks handed to `operator<<`, in write
  order; the file content is their concatenation.  The stream is open for the
  whole life of the object (the constructor `CHECK`s it, only the destructor
  closes it), so no open/closed flag is carried.
* `LOG(INFO)` lines are kept in `info_log`.
* A `const char *` that is kept beyond one call (`ScopedTraceEvent::name`) is
  an address; the characters behind it are read from `Machine.c_str` each
  time they are used.
* `std::mutex mu_` serialises `AddEvent`; the embedding is the sequential
  semantics of one call at a time.
-/

namespace Tracing

/-! ## Formatting (`absl::StrFormat`) -/

/-- An argument handed to `absl::StrFormat`, tagged with its C++ type. -/
inductive FormatArg where
  /-- A `std::string`. -/
  | str (s : String)
  /-- A `char`. -/
  | chr (c : Char)
  /-- An `int64_t`. -/
  | int64 (v : Int)
  /-- An `int` (32 bits). -/
  | int32 (v : Int)
deriving DecidableEq, Repr

/-- The part of `absl::StrFormat` that `TraceEvent::ToString` uses: literal
characters are copied, `%s` inserts a string as is, `%c` a character, `%lld`
a signed decimal and `%u` the decimal of the argument converted to the
unsigned type of its width.  A conversion that does not match its argument
ends the output. -/
def StrFormat : List Char → List FormatArg → List Char
  | [], _ => []
  | c :: fmt, args =>
    if c = '%' then
      match fmt, args with
      | 's' :: rest, FormatArg.str s :: args => s.data ++ StrFormat rest args
      | 'c' :: rest, FormatArg.chr ch :: args => ch :: StrFormat rest args
      | 'l' :: 'l' :: 'd' :: rest, FormatArg.int64 v :: args =>
        (toString v).data ++ StrFormat rest args
      | 'u' :: rest, FormatArg.int32 v :: args =>
        (toString (v % 2 ^ 32).toNat).data ++ StrFormat rest args
      | _, _ => []
    else c :: StrFormat fmt args

/-! ## `TraceEvent` -/

/-- The record `struct TraceEvent`. -/
structure TraceEvent where
  /-- Field `std::string name`. -/
  name : String
  /-- Field `char ph`. -/
  ph : Char
  /-- Field `int64_t ts`. -/
  ts : Int
  /-- Field `int pid`. -/
  pid : Int
  /-- Field `int tid`. -/
  tid : Int
deriving DecidableEq, Repr

/-- What a `TraceEvent` constructor reads from its surroundings. -/
structure Env where
  /-- Microseconds of `high_resolution_clock::now().time_since_epoch()`. -/
  clock_us : Int
  /-- Result of `getpid()`. -/
  getpid : Int
  /-- Result of `std::hash<std::thread::id>` on the calling thread
  (a `size_t`). -/
  thread_hash : Nat
deriving DecidableEq, Repr

/-- Narrowing of an integer to a 32-bit `int` (two's complement). -/
def toInt32 (n : Int) : Int := (n + 2 ^ 31) % 2 ^ 32 - 2 ^ 31

/-- The helper `MicrosecondsSinceEpoch()`. -/
def MicrosecondsSinceEpoch (env : Env) : Int := env.clock_us

/-- The helper `CurrentThreadId()`: the thread hash returned as `int`. -/
def CurrentThreadId (env : Env) : Int := toInt32 env.thread_hash

/-- The constructor `TraceEvent::TraceEvent(const char *_name, char phase)`. -/
def TraceEvent.ctor (env : Env) (_name : String) (phase : Char) : TraceEvent :=
  { name := _name, ph := phase, ts := MicrosecondsSinceEpoch env,
    pid := env.getpid, tid := CurrentThreadId env }

/-- The format string of `TraceEvent::ToString`. -/
def TraceEvent.format : String :=
  "\x7b\"name\": \"%s\", \"ph\": \"%c\", \"ts\": %lld, \"pid\": %u, \"tid\": %u\x7d"

/-- The method `TraceEvent::ToString`. -/
def TraceEvent.ToString (e : TraceEvent) : String :=
  String.mk (StrFormat TraceEvent.format.data
    [FormatArg.str e.name, FormatArg.chr e.ph, FormatArg.int64 e.ts,
     FormatArg.int32 e.pid, FormatArg.int32 e.tid])

/-- The fields of an event have the ranges of their C++ types. -/
def TraceEvent.InRange (e : TraceEvent) : Prop :=
  -2 ^ 63 ≤ e.ts ∧ e.ts < 2 ^ 63 ∧ -2 ^ 31 ≤ e.pid ∧ e.pid < 2 ^ 31 ∧
    -2 ^ 31 ≤ e.tid ∧ e.tid < 2 ^ 31

instance (e : TraceEvent) : Decidable e.InRange := by
  unfold TraceEvent.InRange; infer_instance

/-! ## `Tracer` -/

/-- One `LOG(INFO)` line of `tracing.cc`. -/
inductive LogLine where
  /-- Line "Creating tracing object; file is: <file>". -/
  | creating (file : String)
  /-- Line "Tracing object writing <n> events.". -/
  | writing (n : Nat)
  /-- Line "Tracing object will be destroyed; results in: <file>". -/
  | destroyed (file : String)
deriving DecidableEq, Repr

/-- The members of `class Tracer` (the mutex apart), with the log lines the
object has emitted.  `num_events_written_` is an `int` in the source; it is
counted here without a bound, the increment of a signed `int` being defined
only below `2 ^ 31`. -/
structure Tracer where
  /-- Member `std::vector<TraceEvent> events_`. -/
  events_ : List TraceEvent
  /-- Member `std::ofstream fp_`: the chunks written so far. -/
  fp_ : List String
  /-- Member `std::string filename_`. -/
  filename_ : String
  /-- Member `size_t tracing_buffer_size_`. -/
  tracing_buffer_size_ : Nat
  /-- Member `int num_events_written_`. -/
  num_events_written_ : Nat
  /-- The `LOG(INFO)` lines emitted so far. -/
  info_log : List LogLine
deriving DecidableEq, Repr

namespace Tracer

/-- The object right after member initialisation with an opened stream. -/
def init (filename : String) (tracing_buffer_size : Nat) : Tracer :=
  { events_ := [], fp_ := [], filename_ := filename,
    tracing_buffer_size_ := tracing_buffer_size, num_events_written_ := 0,
    info_log := [] }

/-- The constructor `Tracer::Tracer(filename, tracing_buffer_size)`.
`opened` is the outcome of `fp_.open(filename)`.  The result is `none` when
the process does not get past the constructor: `CHECK(fp_.is_open())` fails,
or the `int` size is negative, so that its `size_t` value is beyond what
`events_.reserve` accepts. -/
def ctor (filename : String) (tracing_buffer_size : Int) (opened : Bool) :
    Option Tracer :=
  if 0 ≤ tracing_buffer_size ∧ opened = true then
    some (init filename tracing_buffer_size.toNat)
  else none

/-- One `fp_ << s`. -/
def put (t : Tracer) (s : String) : Tracer :=
  { t with fp_ := t.fp_ ++ [s] }

/-- The range-for loop of `Tracer::WriteRecords` over the events still to
visit; `&event != &events_.back()` holds exactly when more events follow. -/
def WriteRecords.loop : List TraceEvent → Tracer → Tracer
  | [], t => t
  | event :: rest, t =>
    let t := t.put event.ToString
    let t := { t with num_events_written_ := t.num_events_written_ + 1 }
    let t := if rest ≠ [] then t.put "," else t
    WriteRecords.loop rest t

/-- The method `Tracer::WriteRecords`. -/
def WriteRecords (t : Tracer) : Tracer :=
  let t := { t with info_log := t.info_log ++ [LogLine.writing t.events_.length] }
  let t := t.put (if t.num_events_written_ ≠ 0 then "," else "[")
  WriteRecords.loop t.events_ t

/-- The method `Tracer::AddEvent`. -/
def AddEvent (t : Tracer) (event : TraceEvent) : Tracer :=
  let t := { t with events_ := t.events_ ++ [event] }
  if t.events_.length ≥ t.tracing_buffer_size_ then
    let t := t.WriteRecords
    { t with events_ := [] }
  else t

/-- The destructor `Tracer::~Tracer`, up to the closing of the stream. -/
def dtor (t : Tracer) : Tracer :=
  let t := t.WriteRecords
  let t := t.put "]"
  { t with info_log := t.info_log ++ [LogLine.destroyed t.filename_] }

/-- A sequence of `AddEvent` calls, in order. -/
def addEvents (t : Tracer) (events : List TraceEvent) : Tracer :=
  events.foldl AddEvent t

/-- The content of the output file: everything written to `fp_`. -/
def file (t : Tracer) : String := String.join t.fp_

/-- The literals `WriteRecords` and the destructor write around events. -/
def isDelimiter (s : String) : Bool := s = "[" || s = "," || s = "]"

/-- The event serialisations written to `fp_`, in write order. -/
def written (t : Tracer) : List String := t.fp_.filter (fun s => !isDelimiter s)

/-- The serialisations of every event handed to `AddEvent` so far: those
written to `fp_`, then those still in `events_`. -/
def recorded (t : Tracer) : List String :=
  t.written ++ t.events_.map TraceEvent.ToString

/-- Number of `WriteRecords` invocations so far: each one logs one
"writing" line. -/
def flushCount (t : Tracer) : Nat :=
  t.info_log.countP (fun l => match l with
    | LogLine.writing _ => true
    | _ => false)

/-- What holds of the stream and the counter between calls. -/
structure Consistent (t : Tracer) : Prop where
  /-- The counter is zero exactly while nothing has been written. -/
  zero_iff : t.num_events_written_ = 0 ↔ t.fp_ = []
  /-- The counter is the number of event chunks on the stream. -/
  count : t.num_events_written_ = t.written.length
  /-- The content is empty, or the bracket and the event chunks joined by
  commas. -/
  content : t.file =
    if t.num_events_written_ = 0 then "" else "[" ++ ",".intercalate t.written

end Tracer

/-- The ceiling of `n / d` for natural numbers. -/
def ceilDiv (n d : Nat) : Nat := (n + d - 1) / d

/-! ## The singleton and the macros -/

/-- The process-wide state the tracing helpers read and write: the three
command-line flags, the outcome `fp_.open` would have for a path, and the
singleton pointer `g_tracer_` (`none` for `nullptr`). -/
structure World where
  /-- Flag `tracing_enable`. -/
  FLAGS_tracing_enable : Bool
  /-- Flag `tracing_file`. -/
  FLAGS_tracing_file : String
  /-- Flag `tracing_buffer_size`. -/
  FLAGS_tracing_buffer_size : Int
  /-- Whether a file at the given path can be opened for writing. -/
  can_open : String → Bool
  /-- The global `g_tracer_`. -/
  g_tracer_ : Option Tracer

/-- The function `Tracer::instance`: the world after the call together with
the object the returned pointer designates, or `none` when the constructor
ends the process. -/
def Tracer.instance (w : World) : Option (World × Tracer) :=
  match w.g_tracer_ with
  | some t => some (w, t)
  | none =>
    match Tracer.ctor w.FLAGS_tracing_file w.FLAGS_tracing_buffer_size
        (w.can_open w.FLAGS_tracing_file) with
    | some t =>
      let t := { t with info_log := LogLine.creating w.FLAGS_tracing_file :: t.info_log }
      some ({ w with g_tracer_ := some t }, t)
    | none => none

/-- The macro `TRACE_EVENT(name, phase)`, run with the readings `env`. -/
def TRACE_EVENT (env : Env) (name : String) (phase : Char) (w : World) :
    Option World :=
  if w.FLAGS_tracing_enable = true then
    match Tracer.instance w with
    | some (w, t) =>
      some { w with g_tracer_ := some (t.AddEvent (TraceEvent.ctor env name phase)) }
    | none => none
  else some w

/-- The state a scope runs in: the tracing state, and the memory that
`const char *` values point into.  `c_str p` is the string found at address
`p`, up to its terminating NUL. -/
structure Machine where
  /-- The flags and the singleton. -/
  world : World
  /-- The C string stored at an address. -/
  c_str : Nat → String

/-- The object `struct ScopedTraceEvent`: its one member is the pointer
`const char *name`, not a copy of the characters. -/
structure ScopedTraceEvent where
  /-- Member `const char *name`. -/
  name : Nat

/-- The constructor of `struct ScopedTraceEvent`: the pointer is stored, and
`TRACE_EVENT(name, 'B')` reads the characters it points to now. -/
def ScopedTraceEvent.ctor (env : Env) (_name : Nat) (m : Machine) :
    Option (ScopedTraceEvent × Machine) :=
  (TRACE_EVENT env (m.c_str _name) 'B' m.world).map fun w =>
    ({ name := _name }, { m with world := w })

/-- The destructor of `struct ScopedTraceEvent`: `TRACE_EVENT(name, 'E')`
reads the characters the stored pointer points to at that moment. -/
def ScopedTraceEvent.dtor (env : Env) (self : ScopedTraceEvent) (m : Machine) :
    Option Machine :=
  (TRACE_EVENT env (m.c_str self.name) 'E' m.world).map fun w =>
    { m with world := w }

/-- The macro `SCOPED_TRACE(name)` at the head of a scope whose remaining
statements are `body`: the object is constructed (readings `enter`), the body
runs, and the object is destroyed at the end of the scope (readings
`leave`).  The body may change the flags, the singleton and the memory. -/
def SCOPED_TRACE (enter leave : Env) (name : Nat)
    (body : Machine → Option Machine) (m : Machine) : Option Machine :=
  (ScopedTraceEvent.ctor enter name m).bind fun p =>
    (body p.2).bind fun m => ScopedTraceEvent.dtor leave p.1 m

/-! ## Sample data -/

/-- A begin event. -/
def sampleA : TraceEvent :=
  { name := "SlowFunction", ph := 'B', ts := 1000, pid := 4242, tid := 7 }

/-- An end event. -/
def sampleB : TraceEvent :=
  { name := "SlowFunction", ph := 'E', ts := 1043, pid := 4242, tid := 7 }

/-- An instant event whose name holds a double quote. -/
def sampleQuote : TraceEvent :=
  { name := "a\"b", ph := 'I', ts := 5, pid := 1, tid := 2 }

/-- Readings on entering a scope. -/
def sampleEnter : Env := { clock_us := 10, getpid := 4242, thread_hash := 7 }

/-- Readings on leaving a scope. -/
def sampleLeave : Env := { clock_us := 53, getpid := 4242, thread_hash := 7 }

/-- A process started with tracing enabled and a buffer of four events,
before any use of the tracer. -/
def sampleWorld : World :=
  { FLAGS_tracing_enable := true, FLAGS_tracing_file := "/tmp/trace.json",
    FLAGS_tracing_buffer_size := 4, can_open := fun _ => true,
    g_tracer_ := none }

/-- The singleton `Tracer::instance` creates in `sampleWorld`. -/
def sampleTracer : Tracer :=
  { Tracer.init "/tmp/trace.json" 4 with
    info_log := [LogLine.creating "/tmp/trace.json"] }

/-- Memory with the literal "main" at address 0 and a character buffer
holding "first" at address 1. -/
def sampleMemory : Nat → String :=
  fun p => if p = 0 then "main" else if p = 1 then "first" else ""

/-- The process `sampleWorld` with the memory `sampleMemory`. -/
def sampleMachine : Machine := { world := sampleWorld, c_str := sampleMemory }

/-- A scope body that records one instant event. -/
def sampleBody (m : Machine) : Option Machine :=
  (TRACE_EVENT sampleEnter "tick" 'I' m.world).map fun w => { m with world := w }

/-- The state `sampleBody` leaves when run right after the constructor of a
`ScopedTraceEvent` on the literal at address 0. -/
def sampleAfterBody : Machine :=
  { sampleMachine with
    world := { sampleWorld with
      g_tracer_ :=
        some ((sampleTracer.AddEvent
          (TraceEvent.ctor sampleEnter (sampleMachine.c_str 0) 'B')).addEvents
            [TraceEvent.ctor sampleEnter "tick" 'I']) } }

/-- A scope body that overwrites the buffer at address 1 with "second", as
`strcpy(buf, "second")` does, and records nothing. -/
def sampleOverwrite (m : Machine) : Option Machine :=
  some { m with c_str := fun p => if p = 1 then "second" else m.c_str p }

/-- A process started without `--tracing_enable`, before any use of the
tracer. -/
def sampleWorldOff : World :=
  { FLAGS_tracing_enable := false, FLAGS_tracing_file := "/tmp/trace.json",
    FLAGS_tracing_buffer_size := 4, can_open := fun _ => true,
    g_tracer_ := none }

/-- Readings on a thread whose hash has the top bit of its low 32 bits set. -/
def sampleHighHash : Env :=
  { clock_us := -3, getpid := 4242, thread_hash := 2 ^ 32 - 1 }

/-- An event constructed with the readings `sampleHighHash`. -/
def sampleNegative : TraceEvent := TraceEvent.ctor sampleHighHash "main" 'B'

/-- The value `%u` prints for an `int`: the value itself, or the value plus
`2 ^ 32` when it is negative. -/
def asUnsigned32 (v : Int) : Int := if v < 0 then v + 2 ^ 32 else v

end Tracing

/-! ## Properties -/

namespace Tracing

/-! ### Serialisation -/

/-- The output of `ToString` spelled out: the literal pieces of the format
string around the five converted fields. -/
theorem TraceEvent.ToString_eq (e : TraceEvent) :
    e.ToString = "\x7b\"name\": \"" ++ e.name ++ "\", \"ph\": \"" ++
      String.singleton e.ph ++ "\", \"ts\": " ++ toString e.ts ++
      ", \"pid\": " ++ toString (e.pid % 2 ^ 32).toNat ++
      ", \"tid\": " ++ toString (e.tid % 2 ^ 32).toNat ++ "\x7d" := by
  apply String.ext
  simp [TraceEvent.ToString, TraceEvent.format, StrFormat]

/-- A serialised event starts with an opening brace followed by a quote. -/
theorem TraceEvent.ToString_data (e : TraceEvent) :
    ∃ cs, e.ToString.data = '\x7b' :: '"' :: cs := by
  rw [TraceEvent.ToString_eq]
  exact ⟨_, by simp; rfl⟩

/-- A serialised event is none of the delimiters. -/
theorem TraceEvent.ToString_not_delimiter (e : TraceEvent) :
    Tracer.isDelimiter e.ToString = false := by
  obtain ⟨cs, h⟩ := e.ToString_data
  have h1 : e.ToString ≠ "[" := fun hh => by rw [hh] at h; simp at h
  have h2 : e.ToString ≠ "," := fun hh => by rw [hh] at h; simp at h
  have h3 : e.ToString ≠ "]" := fun hh => by rw [hh] at h; simp at h
  simp [Tracer.isDelimiter, h1, h2, h3]

/-! ### One flush -/

namespace Tracer

/-- A constructor call with a non-negative size and a file that opens
yields the new object `init`. -/
theorem ctor_eq_init (filename : String) (tracing_buffer_size : Int)
    (h : 0 ≤ tracing_buffer_size) :
    ctor filename tracing_buffer_size true =
      some (init filename tracing_buffer_size.toNat) := by
  simp [ctor, h]

/-- The loop of `WriteRecords` writes the events separated by commas and
counts them; nothing else changes. -/
theorem WriteRecords.loop_eq (es : List TraceEvent) (t : Tracer) :
    WriteRecords.loop es t =
      { t with
        fp_ := t.fp_ ++ (es.map TraceEvent.ToString).intersperse ",",
        num_events_written_ := t.num_events_written_ + es.length } := by
  induction es generalizing t with
  | nil => simp [WriteRecords.loop]
  | cons e rest ih =>
    cases rest with
    | nil => simp [WriteRecords.loop, put]
    | cons e2 rest2 =>
      rw [WriteRecords.loop, ih]
      simp [put, List.intersperse]
      omega

/-- The effect of one `WriteRecords` on every member. -/
theorem WriteRecords_eq (t : Tracer) :
    t.WriteRecords =
      { t with
        fp_ := t.fp_ ++ (if t.num_events_written_ ≠ 0 then "," else "[") ::
          (t.events_.map TraceEvent.ToString).intersperse ",",
        num_events_written_ := t.num_events_written_ + t.events_.length,
        info_log := t.info_log ++ [LogLine.writing t.events_.length] } := by
  simp [WriteRecords, WriteRecords.loop_eq, put]

/-- Interspersing commas and dropping the delimiters gives the events back. -/
theorem filter_intersperse (es : List TraceEvent) :
    ((es.map TraceEvent.ToString).intersperse ",").filter
      (fun s => !isDelimiter s) = es.map TraceEvent.ToString := by
  induction es with
  | nil => simp
  | cons e rest ih =>
    cases rest with
    | nil => simp [e.ToString_not_delimiter]
    | cons e2 rest2 =>
      have hc : isDelimiter "," = true := by decide
      simp only [List.map_cons, List.intersperse] at ih ⊢
      rw [List.filter_cons, List.filter_cons, ih]
      simp [e.ToString_not_delimiter, hc]

/-! ### One append -/

/-- The effect of `AddEvent` on every member: below the threshold the event
is only buffered, otherwise the buffer with the new event is flushed and
cleared. -/
theorem AddEvent_eq (t : Tracer) (e : TraceEvent) :
    t.AddEvent e =
      if t.events_.length + 1 ≥ t.tracing_buffer_size_ then
        { t with
          events_ := [],
          fp_ := t.fp_ ++ (if t.num_events_written_ ≠ 0 then "," else "[") ::
            ((t.events_ ++ [e]).map TraceEvent.ToString).intersperse ",",
          num_events_written_ := t.num_events_written_ + (t.events_.length + 1),
          info_log := t.info_log ++ [LogLine.writing (t.events_.length + 1)] }
      else { t with events_ := t.events_ ++ [e] } := by
  unfold AddEvent
  simp only [List.length_append, List.length_singleton]
  split
  · simp [WriteRecords_eq]
  · rfl

/-- The threshold is fixed: `AddEvent` does not change it. -/
theorem AddEvent_size (t : Tracer) (e : TraceEvent) :
    (t.AddEvent e).tracing_buffer_size_ = t.tracing_buffer_size_ := by
  rw [AddEvent_eq]; split <;> rfl

/-- The file name is fixed: `AddEvent` does not change it. -/
theorem AddEvent_filename (t : Tracer) (e : TraceEvent) :
    (t.AddEvent e).filename_ = t.filename_ := by
  rw [AddEvent_eq]; split <;> rfl

/-- After any `AddEvent` on an object with a positive threshold the buffer
is below the threshold. -/
theorem AddEvent_length_lt (t : Tracer) (e : TraceEvent)
    (h : 0 < t.tracing_buffer_size_) :
    (t.AddEvent e).events_.length < t.tracing_buffer_size_ := by
  rw [AddEvent_eq]
  split
  · simpa using h
  · simp only [List.length_append, List.length_singleton]; omega

/-- Appending one more event to a run is one more `AddEvent`. -/
theorem addEvents_snoc (t : Tracer) (es : List TraceEvent) (e : TraceEvent) :
    t.addEvents (es ++ [e]) = (t.addEvents es).AddEvent e := by
  simp [addEvents, List.foldl_append]

/-- A run starting with `e` is `AddEvent e` followed by the rest. -/
theorem addEvents_cons (t : Tracer) (e : TraceEvent) (es : List TraceEvent) :
    t.addEvents (e :: es) = (t.AddEvent e).addEvents es := rfl

/-- The threshold is the same after any run of appends. -/
theorem addEvents_size (t : Tracer) (es : List TraceEvent) :
    (t.addEvents es).tracing_buffer_size_ = t.tracing_buffer_size_ := by
  induction es generalizing t with
  | nil => rfl
  | cons e es ih => rw [addEvents_cons, ih, AddEvent_size]

/-- The file name is the same after any run of appends. -/
theorem addEvents_filename (t : Tracer) (es : List TraceEvent) :
    (t.addEvents es).filename_ = t.filename_ := by
  induction es generalizing t with
  | nil => rfl
  | cons e es ih => rw [addEvents_cons, ih, AddEvent_filename]

/-- While the buffer stays below the threshold a run of appends only
extends the buffer. -/
theorem addEvents_below (t : Tracer) (es : List TraceEvent)
    (h : t.events_.length + es.length < t.tracing_buffer_size_) :
    t.addEvents es = { t with events_ := t.events_ ++ es } := by
  induction es generalizing t with
  | nil => simp [addEvents]
  | cons e es ih =>
    simp only [List.length_cons] at h
    rw [addEvents_cons, AddEvent_eq, if_neg (by omega), ih]
    · simp
    · simp only [List.length_append, List.length_singleton]; omega

/-! ### What has been recorded -/

/-- One append adds the event, and only it, after everything written or
buffered before. -/
theorem AddEvent_written (t : Tracer) (e : TraceEvent) :
    (t.AddEvent e).written ++ (t.AddEvent e).events_.map TraceEvent.ToString =
      t.written ++ t.events_.map TraceEvent.ToString ++ [e.ToString] := by
  rw [AddEvent_eq]
  split
  · have hd : isDelimiter (if t.num_events_written_ ≠ 0 then "," else "[") = true := by
      split <;> decide
    simp only [written, List.filter_append, List.filter_cons, hd, filter_intersperse]
    simp
  · simp [written]

/-- One append raises the number of events written or buffered by one. -/
theorem AddEvent_count (t : Tracer) (e : TraceEvent) :
    (t.AddEvent e).num_events_written_ + (t.AddEvent e).events_.length =
      t.num_events_written_ + t.events_.length + 1 := by
  rw [AddEvent_eq]
  split
  · simp; omega
  · simp; omega

/-- A run of appends records its events in order after what was there. -/
theorem addEvents_written (t : Tracer) (es : List TraceEvent) :
    (t.addEvents es).written ++ (t.addEvents es).events_.map TraceEvent.ToString =
      t.written ++ t.events_.map TraceEvent.ToString ++ es.map TraceEvent.ToString := by
  induction es generalizing t with
  | nil => simp [addEvents]
  | cons e es ih => rw [addEvents_cons, ih, AddEvent_written]; simp

/-- A run of appends raises the number of events written or buffered by
its length. -/
theorem addEvents_count (t : Tracer) (es : List TraceEvent) :
    (t.addEvents es).num_events_written_ + (t.addEvents es).events_.length =
      t.num_events_written_ + t.events_.length + es.length := by
  induction es generalizing t with
  | nil => simp [addEvents]
  | cons e es ih => rw [addEvents_cons, ih, AddEvent_count]; simp; omega

/-- The effect of the destructor on every member. -/
theorem dtor_eq (t : Tracer) :
    t.dtor =
      { t with
        fp_ := t.fp_ ++ (if t.num_events_written_ ≠ 0 then "," else "[") ::
          ((t.events_.map TraceEvent.ToString).intersperse "," ++ ["]"]),
        num_events_written_ := t.num_events_written_ + t.events_.length,
        info_log := t.info_log ++
          [LogLine.writing t.events_.length, LogLine.destroyed t.filename_] } := by
  simp [dtor, WriteRecords_eq, put]

/-- The destructor writes the buffered events after those already
written. -/
theorem dtor_written (t : Tracer) :
    t.dtor.written = t.written ++ t.events_.map TraceEvent.ToString := by
  have hd : isDelimiter (if t.num_events_written_ ≠ 0 then "," else "[") = true := by
    split <;> decide
  have hb : isDelimiter "]" = true := by decide
  rw [dtor_eq]
  simp only [written, List.filter_append, List.filter_cons, hd, hb, filter_intersperse]
  simp

end Tracer

/-! ### Strings -/

/-- The accumulating loop of `String.intercalate`, on characters. -/
theorem intercalate_go_data (acc s : String) (l : List String) :
    (String.intercalate.go acc s l).data =
      acc.data ++ (l.map (fun a => s.data ++ a.data)).flatten := by
  induction l generalizing acc with
  | nil => simp [String.intercalate.go]
  | cons a as ih => simp [String.intercalate.go, ih]

/-- Concatenating a list with a separator put between its elements is
`String.intercalate`. -/
theorem join_intersperse (s : String) (l : List String) :
    String.join (l.intersperse s) = s.intercalate l := by
  apply String.ext
  rw [String.data_join]
  induction l with
  | nil => simp [String.intercalate]
  | cons a as ih =>
    cases as with
    | nil => simp [String.intercalate, String.intercalate.go]
    | cons b bs =>
      simp only [List.intersperse, List.map_cons, List.flatten_cons] at ih ⊢
      rw [ih]
      simp [String.intercalate, intercalate_go_data]

/-- Concatenation of chunks distributes over list append. -/
theorem join_append (l₁ l₂ : List String) :
    String.join (l₁ ++ l₂) = String.join l₁ ++ String.join l₂ := by
  apply String.ext
  simp [String.data_join]

/-- Concatenation of chunks, first chunk split off. -/
theorem join_cons (a : String) (l : List String) :
    String.join (a :: l) = a ++ String.join l := by
  apply String.ext
  simp [String.data_join]

/-- A non-negative `Int` prints like the natural number it is. -/
theorem toString_toNat (v : Int) (h : 0 ≤ v) : toString v.toNat = toString v := by
  cases v with
  | ofNat n => rfl
  | negSucc n => exact absurd h (by simp)

/-- The ceiling of `n / c` when `c` divides `n`. -/
theorem ceilDiv_of_dvd (n c : Nat) (hc : 0 < c) (h : c ∣ n) : ceilDiv n c = n / c := by
  obtain ⟨k, rfl⟩ := h
  have hsum : c * k + c - 1 = (c - 1) + c * k := by omega
  rw [ceilDiv, hsum, Nat.add_mul_div_left _ _ hc, Nat.div_eq_of_lt (by omega),
    Nat.mul_div_cancel_left _ hc]
  simp

/-- The ceiling of `n / c` when `c` does not divide `n`. -/
theorem ceilDiv_of_not_dvd (n c : Nat) (hc : 0 < c) (h : ¬ c ∣ n) :
    ceilDiv n c = n / c + 1 := by
  have hdm : c * (n / c) + n % c = n := Nat.div_add_mod _ _
  have hmod : n % c < c := Nat.mod_lt _ hc
  have hr : 0 < n % c := by
    rcases Nat.eq_zero_or_pos (n % c) with h0 | h0
    · exact absurd (Nat.dvd_of_mod_eq_zero h0) h
    · exact h0
  have hmul : c * (n / c + 1) = c * (n / c) + c := Nat.mul_succ _ _
  have hsum : n + c - 1 = (n % c - 1) + c * (n / c + 1) := by omega
  rw [ceilDiv, hsum, Nat.add_mul_div_left _ _ hc, Nat.div_eq_of_lt (by omega)]
  simp

namespace Tracer

/-! ### Counting flushes -/

/-- An append flushes exactly when the buffer reaches the threshold. -/
theorem AddEvent_flushCount (t : Tracer) (e : TraceEvent) :
    (t.AddEvent e).flushCount =
      t.flushCount + if t.events_.length + 1 ≥ t.tracing_buffer_size_ then 1 else 0 := by
  rw [AddEvent_eq]
  split <;> simp [flushCount, List.countP_append]

/-- The destructor flushes once. -/
theorem dtor_flushCount (t : Tracer) : t.dtor.flushCount = t.flushCount + 1 := by
  rw [dtor_eq]
  simp [flushCount, List.countP_append, List.countP_cons]

/-- Quotient and remainder of `n + 1` when the remainder of `n` is the
last one before a multiple of `c`. -/
theorem succ_div_mod_full (n c : Nat) (hc : 0 < c) (h : n % c + 1 ≥ c) :
    (n + 1) % c = 0 ∧ (n + 1) / c = n / c + 1 := by
  have hmod : n % c < c := Nat.mod_lt _ hc
  have hdm : c * (n / c) + n % c = n := Nat.div_add_mod _ _
  have hn : n + 1 = 0 + c * (n / c + 1) := by rw [Nat.mul_add]; omega
  rw [hn, Nat.add_mul_mod_self_left, Nat.add_mul_div_left _ _ hc]
  simp

/-- Quotient and remainder of `n + 1` otherwise. -/
theorem succ_div_mod_room (n c : Nat) (hc : 0 < c) (h : ¬ n % c + 1 ≥ c) :
    (n + 1) % c = n % c + 1 ∧ (n + 1) / c = n / c := by
  have hdm : c * (n / c) + n % c = n := Nat.div_add_mod _ _
  have hn : n + 1 = (n % c + 1) + c * (n / c) := by omega
  have h1 : (n % c + 1 + c * (n / c)) % c = n % c + 1 := by
    rw [Nat.add_mul_mod_self_left, Nat.mod_eq_of_lt (by omega)]
  have h2 : (n % c + 1 + c * (n / c)) / c = n / c := by
    rw [Nat.add_mul_div_left _ _ hc, Nat.div_eq_of_lt (by omega)]; simp
  rw [hn]
  exact ⟨h1, h2⟩

/-- After `n` appends to a new object with threshold `c`, `n % c` events are
buffered and `n / c` flushes have happened. -/
theorem addEvents_init_shape (filename : String) (c : Nat) (hc : 1 ≤ c)
    (es : List TraceEvent) :
    ((init filename c).addEvents es).events_.length = es.length % c ∧
      ((init filename c).addEvents es).flushCount = es.length / c := by
  induction es using List.reverseRecOn with
  | nil => simp [addEvents, init, flushCount]
  | append_singleton es e ih =>
    obtain ⟨hlen, hflush⟩ := ih
    have hsize : ((init filename c).addEvents es).tracing_buffer_size_ = c :=
      addEvents_size (init filename c) es
    rw [addEvents_snoc, AddEvent_flushCount, AddEvent_eq, hsize, hlen, hflush]
    simp only [List.length_append, List.length_singleton]
    by_cases hfull : es.length % c + 1 ≥ c
    · obtain ⟨h1, h2⟩ := succ_div_mod_full es.length c hc hfull
      rw [if_pos hfull, if_pos hfull, h1, h2]
      simp
    · obtain ⟨h1, h2⟩ := succ_div_mod_room es.length c hc hfull
      rw [if_neg hfull, if_neg hfull, h1, h2]
      simp [hlen]

end Tracer

/-! ### The recorder: runs of appends followed by teardown -/

/-- C1: for a capacity of at least one and fewer events than the capacity,
appending them to a new Tracer and destroying it leaves in the file exactly
an opening bracket, the serialised events in append order joined by commas,
and a closing bracket; with no event at all the file is exactly "[]". -/
theorem below_capacity_file (filename : String) (capacity : Nat)
    (events : List TraceEvent) (hcap : 1 ≤ capacity)
    (hN : events.length < capacity) :
    ((Tracer.init filename capacity).addEvents events).dtor.file =
        "[" ++ ",".intercalate (events.map TraceEvent.ToString) ++ "]" ∧
      ((Tracer.init filename capacity).addEvents []).dtor.file = "[]" := by
  have hrun : ∀ es : List TraceEvent, es.length < capacity →
      ((Tracer.init filename capacity).addEvents es).dtor.file =
        "[" ++ ",".intercalate (es.map TraceEvent.ToString) ++ "]" := by
    intro es hes
    rw [Tracer.addEvents_below _ _ (by simpa [Tracer.init] using hes), Tracer.dtor_eq]
    simp only [Tracer.file, Tracer.init, List.nil_append, ne_eq, not_true_eq_false,
      if_false]
    rw [join_cons, join_append, join_intersperse, join_cons]
    apply String.ext
    simp [String.join]
  refine ⟨hrun events hN, ?_⟩
  have h0 := hrun [] (by simpa using hcap)
  simpa [String.intercalate] using h0

/-- Witness of C1: capacity four, two events. -/
theorem below_capacity_file_witness :
    (1 ≤ 4 ∧ [sampleA, sampleB].length < 4) ∧
      (((Tracer.init "/tmp/trace.json" 4).addEvents [sampleA, sampleB]).dtor.file =
          "[" ++ ",".intercalate ([sampleA, sampleB].map TraceEvent.ToString) ++ "]" ∧
        ((Tracer.init "/tmp/trace.json" 4).addEvents []).dtor.file = "[]") :=
  ⟨⟨by decide, by decide⟩,
    below_capacity_file "/tmp/trace.json" 4 [sampleA, sampleB] (by decide) (by decide)⟩

/-- C2: at capacity two, after two appends the buffer is empty at teardown,
and the file the destructor leaves ends in a comma followed by the closing
bracket. -/
theorem empty_buffer_teardown_dangling_comma :
    ((Tracer.init "/tmp/trace.json" 2).addEvents [sampleA, sampleB]).events_ = [] ∧
      ((Tracer.init "/tmp/trace.json" 2).addEvents [sampleA, sampleB]).dtor.file =
        "[" ++ sampleA.ToString ++ "," ++ sampleB.ToString ++ ",]" := by
  decide

/-- C3: for every capacity (those of at least one included) and any events,
after appending them to a new Tracer and destroying it the serialisations
written to the stream, delimiters left out, are those of the appended events
in append order, each once, and the counter of written events equals their
number. -/
theorem no_event_lost_or_duplicated (filename : String) (capacity : Nat)
    (events : List TraceEvent) :
    ((Tracer.init filename capacity).addEvents events).dtor.written =
        events.map TraceEvent.ToString ∧
      ((Tracer.init filename capacity).addEvents events).dtor.num_events_written_ =
        events.length := by
  have hw := Tracer.addEvents_written (Tracer.init filename capacity) events
  have hn := Tracer.addEvents_count (Tracer.init filename capacity) events
  constructor
  · rw [Tracer.dtor_written, hw]
    simp [Tracer.written, Tracer.init]
  · rw [Tracer.dtor_eq]
    simpa [Tracer.init] using hn

/-- C4 as stated fails: at capacity two, two appends and teardown invoke
`WriteRecords` twice, while the ceiling of 2 / 2 is one. -/
theorem flush_count_not_ceiling :
    2 ≤ [sampleA, sampleB].length ∧
      ((Tracer.init "/tmp/trace.json" 2).addEvents [sampleA, sampleB]).dtor.flushCount = 2 ∧
      ceilDiv [sampleA, sampleB].length 2 = 1 := by
  decide

/-- C4, amended: for a capacity of at least one and N appended events, the
appends and the teardown invoke `WriteRecords` N / capacity + 1 times
(rounded down); that is the ceiling of N / capacity when the capacity does
not divide N, and one more than the ceiling when it does. -/
theorem flush_count (filename : String) (capacity : Nat)
    (events : List TraceEvent) (hcap : 1 ≤ capacity) :
    ((Tracer.init filename capacity).addEvents events).dtor.flushCount =
        events.length / capacity + 1 ∧
      (¬ capacity ∣ events.length →
        ((Tracer.init filename capacity).addEvents events).dtor.flushCount =
          ceilDiv events.length capacity) ∧
      (capacity ∣ events.length →
        ((Tracer.init filename capacity).addEvents events).dtor.flushCount =
          ceilDiv events.length capacity + 1) := by
  have hcount : ((Tracer.init filename capacity).addEvents events).dtor.flushCount =
      events.length / capacity + 1 := by
    rw [Tracer.dtor_flushCount, (Tracer.addEvents_init_shape filename capacity hcap events).2]
  refine ⟨hcount, fun hndvd => ?_, fun hdvd => ?_⟩
  · rw [hcount, ceilDiv_of_not_dvd _ _ (by omega) hndvd]
  · rw [hcount, ceilDiv_of_dvd _ _ (by omega) hdvd]

/-- Witness of C4, amended: capacity two, three events. -/
theorem flush_count_witness :
    1 ≤ 2 ∧
      (((Tracer.init "/tmp/trace.json" 2).addEvents
            [sampleA, sampleQuote, sampleB]).dtor.flushCount =
          [sampleA, sampleQuote, sampleB].length / 2 + 1 ∧
        (¬ 2 ∣ [sampleA, sampleQuote, sampleB].length →
          ((Tracer.init "/tmp/trace.json" 2).addEvents
              [sampleA, sampleQuote, sampleB]).dtor.flushCount =
            ceilDiv [sampleA, sampleQuote, sampleB].length 2) ∧
        (2 ∣ [sampleA, sampleQuote, sampleB].length →
          ((Tracer.init "/tmp/trace.json" 2).addEvents
              [sampleA, sampleQuote, sampleB]).dtor.flushCount =
            ceilDiv [sampleA, sampleQuote, sampleB].length 2 + 1)) :=
  ⟨by decide,
    flush_count "/tmp/trace.json" 2 [sampleA, sampleQuote, sampleB] (by decide)⟩

/-! ### Serialisation of one event -/

/-- C5: `ToString` copies a name holding a double quote unchanged between
the quotes of the "name" value, so the quote inside the name is not
escaped. -/
theorem ToString_quote_in_name_unescaped :
    sampleQuote.name = "a\"b" ∧
      sampleQuote.ToString =
        "\x7b\"name\": \"a\"b\", \"ph\": \"I\", \"ts\": 5, \"pid\": 1, \"tid\": 2\x7d" := by
  decide

/-- C6: for an event whose fields are in the ranges of their types and
whose pid and tid are not negative, `ToString` returns the object with the
keys name, ph, ts, pid, tid in this order: the name between quotes, the phase
character between quotes, and ts, pid, tid in decimal. -/
theorem ToString_layout (e : TraceEvent) (hrange : e.InRange)
    (hpid : 0 ≤ e.pid) (htid : 0 ≤ e.tid) :
    e.ToString =
      "\x7b\"name\": \"" ++ e.name ++ "\", \"ph\": \"" ++ String.singleton e.ph ++
        "\", \"ts\": " ++ toString e.ts ++ ", \"pid\": " ++ toString e.pid ++
        ", \"tid\": " ++ toString e.tid ++ "\x7d" := by
  obtain ⟨_, _, _, hp, _, ht⟩ := hrange
  have h1 : e.pid % 2 ^ 32 = e.pid := Int.emod_eq_of_lt hpid (by omega)
  have h2 : e.tid % 2 ^ 32 = e.tid := Int.emod_eq_of_lt htid (by omega)
  rw [TraceEvent.ToString_eq, h1, h2, toString_toNat _ hpid, toString_toNat _ htid]

/-- Witness of C6: an event whose phase is not one of B, E, I. -/
theorem ToString_layout_witness :
    ((TraceEvent.mk "main" '?' (-3) 4242 7).InRange ∧
        0 ≤ (TraceEvent.mk "main" '?' (-3) 4242 7).pid ∧
        0 ≤ (TraceEvent.mk "main" '?' (-3) 4242 7).tid) ∧
      (TraceEvent.mk "main" '?' (-3) 4242 7).ToString =
        "\x7b\"name\": \"" ++ (TraceEvent.mk "main" '?' (-3) 4242 7).name ++
          "\", \"ph\": \"" ++ String.singleton (TraceEvent.mk "main" '?' (-3) 4242 7).ph ++
          "\", \"ts\": " ++ toString (TraceEvent.mk "main" '?' (-3) 4242 7).ts ++
          ", \"pid\": " ++ toString (TraceEvent.mk "main" '?' (-3) 4242 7).pid ++
          ", \"tid\": " ++ toString (TraceEvent.mk "main" '?' (-3) 4242 7).tid ++ "\x7d" :=
  ⟨⟨by decide, by decide, by decide⟩,
    ToString_layout (TraceEvent.mk "main" '?' (-3) 4242 7) (by decide) (by decide)
      (by decide)⟩

/-! ### The buffer bound -/

/-- C7: for a capacity of at least one, after any sequence of appends to a
new Tracer the buffer holds fewer events than the capacity. -/
theorem buffer_below_capacity (filename : String) (capacity : Nat)
    (events : List TraceEvent) (hcap : 1 ≤ capacity) :
    ((Tracer.init filename capacity).addEvents events).events_.length < capacity := by
  have h := (Tracer.addEvents_init_shape filename capacity hcap events).1
  rw [h]
  exact Nat.mod_lt _ (by omega)

/-- Witness of C7: capacity two, three events. -/
theorem buffer_below_capacity_witness :
    1 ≤ 2 ∧
      ((Tracer.init "/tmp/trace.json" 2).addEvents
          [sampleA, sampleQuote, sampleB]).events_.length < 2 :=
  ⟨by decide,
    buffer_below_capacity "/tmp/trace.json" 2 [sampleA, sampleQuote, sampleB]
      (by decide)⟩

/-- C8: at capacity two, two threads appending one event each fill the
buffer exactly; in either order of the two appends the file after teardown
ends in a comma followed by the closing bracket. -/
theorem two_appenders_dangling_comma :
    ((Tracer.init "/tmp/trace.json" 2).addEvents [sampleA, sampleB]).dtor.file =
        "[" ++ sampleA.ToString ++ "," ++ sampleB.ToString ++ ",]" ∧
      ((Tracer.init "/tmp/trace.json" 2).addEvents [sampleB, sampleA]).dtor.file =
        "[" ++ sampleB.ToString ++ "," ++ sampleA.ToString ++ ",]" := by
  decide

/-! ### The singleton and the scope helper -/

/-- When the singleton exists, `Tracer::instance` returns it and changes
nothing, whatever the flags say. -/
theorem Tracer.instance_of_some (w : World) (t : Tracer) (h : w.g_tracer_ = some t) :
    Tracer.instance w = some (w, t) := by
  simp [Tracer.instance, h]

/-- A successful `Tracer::instance` leaves the singleton set to the object
it returns and touches nothing else of the world. -/
theorem Tracer.instance_world (w w0 : World) (t : Tracer)
    (h : Tracer.instance w = some (w0, t)) :
    w0 = { w with g_tracer_ := some t } := by
  unfold Tracer.instance at h
  split at h
  · next t0 ht0 =>
    simp only [Option.some.injEq, Prod.mk.injEq] at h
    obtain ⟨rfl, rfl⟩ := h
    cases w; simp_all
  · split at h
    · simp only [Option.some.injEq, Prod.mk.injEq] at h
      obtain ⟨rfl, rfl⟩ := h
      rfl
    · simp at h

/-- With tracing enabled and a singleton at hand, `TRACE_EVENT` is one
`AddEvent` of the newly constructed event. -/
theorem TRACE_EVENT_of_some (env : Env) (name : String) (phase : Char) (w : World)
    (t : Tracer) (hen : w.FLAGS_tracing_enable = true) (h : w.g_tracer_ = some t) :
    TRACE_EVENT env name phase w =
      some { w with g_tracer_ := some (t.AddEvent (TraceEvent.ctor env name phase)) } := by
  simp [TRACE_EVENT, hen, Tracer.instance_of_some w t h]

/-- C9: once a call of `Tracer::instance` has returned the singleton, a
later call, made after the flags and the outcome of opening files have
changed and after any events have been appended, returns the singleton as it
then is and leaves the world, the singleton included, unchanged; its file
name and threshold are still those of the first call. -/
theorem instance_idempotent (w w0 : World) (t : Tracer)
    (hfirst : Tracer.instance w = some (w0, t))
    (file2 : String) (size2 : Int) (open2 : String → Bool)
    (events : List TraceEvent) :
    Tracer.instance
        { w0 with
          FLAGS_tracing_file := file2, FLAGS_tracing_buffer_size := size2,
          can_open := open2, g_tracer_ := some (t.addEvents events) } =
      some
        ({ w0 with
            FLAGS_tracing_file := file2, FLAGS_tracing_buffer_size := size2,
            can_open := open2, g_tracer_ := some (t.addEvents events) },
          t.addEvents events) ∧
      w0.g_tracer_ = some t ∧
      (t.addEvents events).filename_ = t.filename_ ∧
      (t.addEvents events).tracing_buffer_size_ = t.tracing_buffer_size_ := by
  refine ⟨Tracer.instance_of_some _ _ rfl, ?_, Tracer.addEvents_filename _ _,
    Tracer.addEvents_size _ _⟩
  rw [Tracer.instance_world w w0 t hfirst]

/-- Witness of C9: the singleton is created with a buffer of four events,
then the flags ask for another file and size and one event is appended. -/
theorem instance_idempotent_witness :
    Tracer.instance sampleWorld =
        some ({ sampleWorld with g_tracer_ := some sampleTracer }, sampleTracer) ∧
      (Tracer.instance
          { FLAGS_tracing_enable := true, FLAGS_tracing_file := "/tmp/other.json",
            FLAGS_tracing_buffer_size := 1, can_open := fun _ => false,
            g_tracer_ := some (sampleTracer.addEvents [sampleA]) } =
        some
          ({ FLAGS_tracing_enable := true, FLAGS_tracing_file := "/tmp/other.json",
             FLAGS_tracing_buffer_size := 1, can_open := fun _ => false,
             g_tracer_ := some (sampleTracer.addEvents [sampleA]) },
            sampleTracer.addEvents [sampleA]) ∧
        some sampleTracer = some sampleTracer ∧
        (sampleTracer.addEvents [sampleA]).filename_ = sampleTracer.filename_ ∧
        (sampleTracer.addEvents [sampleA]).tracing_buffer_size_ =
          sampleTracer.tracing_buffer_size_) :=
  ⟨rfl,
    instance_idempotent sampleWorld { sampleWorld with g_tracer_ := some sampleTracer }
      sampleTracer rfl "/tmp/other.json" 1 (fun _ => false) [sampleA]⟩

/-- C10 as stated fails: with tracing enabled, a `ScopedTraceEvent` is
constructed on a buffer holding "first" and the body of the scope overwrites
the buffer with "second"; the scope records a B event named "first" and an E
event named "second", not the same name. -/
theorem scoped_trace_name_reread :
    sampleMachine.world.FLAGS_tracing_enable = true ∧
      sampleMachine.c_str 1 = "first" ∧
      (SCOPED_TRACE sampleEnter sampleLeave 1 sampleOverwrite sampleMachine).map
          (fun m => m.world.g_tracer_) =
        some (some (sampleTracer.addEvents
          [TraceEvent.ctor sampleEnter "first" 'B',
            TraceEvent.ctor sampleLeave "second" 'E'])) ∧
      (TraceEvent.ctor sampleLeave "second" 'E').name ≠
        (TraceEvent.ctor sampleEnter "first" 'B').name := by
  decide

/-- C10, amended: with tracing enabled, constructing a `ScopedTraceEvent`
from a pointer is one `AddEvent` of an event with phase B named by the string
the pointer designates at construction; destroying it is one `AddEvent` of an
event with phase E named by the string the pointer designates at
destruction, which is the same name when the body has left that string as it
was; and a scope whose body appends the events `inner` (and may change the
memory and the flags, tracing staying enabled) records the B event, then
`inner`, then the E event, after everything recorded before. -/
theorem scoped_trace_brackets (m m2 : Machine) (w0 : World) (t : Tracer)
    (henabled : m.world.FLAGS_tracing_enable = true)
    (hinst : Tracer.instance m.world = some (w0, t))
    (enter leave : Env) (name : Nat) (body : Machine → Option Machine)
    (inner : List TraceEvent)
    (hbody :
      body { m with
          world := { w0 with
            g_tracer_ := some (t.AddEvent (TraceEvent.ctor enter (m.c_str name) 'B')) } } =
        some m2)
    (henabled2 : m2.world.FLAGS_tracing_enable = true)
    (hinner : m2.world.g_tracer_ =
      some ((t.AddEvent (TraceEvent.ctor enter (m.c_str name) 'B')).addEvents inner)) :
    ((TraceEvent.ctor enter (m.c_str name) 'B').name = m.c_str name ∧
        (TraceEvent.ctor enter (m.c_str name) 'B').ph = 'B' ∧
        (TraceEvent.ctor leave (m2.c_str name) 'E').name = m2.c_str name ∧
        (TraceEvent.ctor leave (m2.c_str name) 'E').ph = 'E') ∧
      (m2.c_str name = m.c_str name →
        (TraceEvent.ctor leave (m2.c_str name) 'E').name =
          (TraceEvent.ctor enter (m.c_str name) 'B').name) ∧
      ScopedTraceEvent.ctor enter name m =
        some ({ name := name },
          { m with
            world := { w0 with
              g_tracer_ := some (t.AddEvent (TraceEvent.ctor enter (m.c_str name) 'B')) } }) ∧
      (∀ (self : ScopedTraceEvent) (m1 : Machine) (t1 : Tracer),
        m1.world.FLAGS_tracing_enable = true → m1.world.g_tracer_ = some t1 →
        ScopedTraceEvent.dtor leave self m1 =
          some { m1 with
            world := { m1.world with
              g_tracer_ :=
                some (t1.AddEvent (TraceEvent.ctor leave (m1.c_str self.name) 'E')) } }) ∧
      SCOPED_TRACE enter leave name body m =
        some { m2 with
          world := { m2.world with
            g_tracer_ := some (t.addEvents
              ((TraceEvent.ctor enter (m.c_str name) 'B' :: inner) ++
                [TraceEvent.ctor leave (m2.c_str name) 'E'])) } } ∧
      (t.addEvents
          ((TraceEvent.ctor enter (m.c_str name) 'B' :: inner) ++
            [TraceEvent.ctor leave (m2.c_str name) 'E'])).recorded =
        t.recorded ++ [(TraceEvent.ctor enter (m.c_str name) 'B').ToString] ++
          inner.map TraceEvent.ToString ++
          [(TraceEvent.ctor leave (m2.c_str name) 'E').ToString] := by
  have hctor : ScopedTraceEvent.ctor enter name m =
      some ({ name := name },
        { m with
          world := { w0 with
            g_tracer_ := some (t.AddEvent (TraceEvent.ctor enter (m.c_str name) 'B')) } }) := by
    simp [ScopedTraceEvent.ctor, TRACE_EVENT, henabled, hinst]
  have hdtor : ∀ (self : ScopedTraceEvent) (m1 : Machine) (t1 : Tracer),
      m1.world.FLAGS_tracing_enable = true → m1.world.g_tracer_ = some t1 →
      ScopedTraceEvent.dtor leave self m1 =
        some { m1 with
          world := { m1.world with
            g_tracer_ :=
              some (t1.AddEvent (TraceEvent.ctor leave (m1.c_str self.name) 'E')) } } := by
    intro self m1 t1 h1 h2
    rw [ScopedTraceEvent.dtor, TRACE_EVENT_of_some leave _ 'E' m1.world t1 h1 h2]
    rfl
  have hrun : t.addEvents
        ((TraceEvent.ctor enter (m.c_str name) 'B' :: inner) ++
          [TraceEvent.ctor leave (m2.c_str name) 'E']) =
      ((t.AddEvent (TraceEvent.ctor enter (m.c_str name) 'B')).addEvents inner).AddEvent
        (TraceEvent.ctor leave (m2.c_str name) 'E') := by
    rw [Tracer.addEvents_snoc, Tracer.addEvents_cons]
  refine ⟨⟨rfl, rfl, rfl, rfl⟩, fun h => h, hctor, hdtor, ?_, ?_⟩
  · rw [SCOPED_TRACE, hctor, Option.some_bind]
    simp only
    rw [hbody, Option.some_bind, hdtor { name := name } m2 _ henabled2 hinner, hrun]
  · have h := Tracer.addEvents_written t
      ((TraceEvent.ctor enter (m.c_str name) 'B' :: inner) ++
        [TraceEvent.ctor leave (m2.c_str name) 'E'])
    simp only [Tracer.recorded]
    rw [h]
    simp

/-- Witness of C10, amended: the scope of `main`, entered with the literal
"main", in a process with tracing enabled, with a body that records one
instant event and leaves the memory alone. -/
theorem scoped_trace_brackets_witness :
    (sampleMachine.world.FLAGS_tracing_enable = true ∧
        Tracer.instance sampleMachine.world =
          some ({ sampleWorld with g_tracer_ := some sampleTracer }, sampleTracer) ∧
        sampleBody
            { sampleMachine with
              world := { sampleWorld with
                g_tracer_ := some (sampleTracer.AddEvent
                  (TraceEvent.ctor sampleEnter (sampleMachine.c_str 0) 'B')) } } =
          some sampleAfterBody ∧
        sampleAfterBody.world.FLAGS_tracing_enable = true ∧
        sampleAfterBody.world.g_tracer_ =
          some ((sampleTracer.AddEvent
            (TraceEvent.ctor sampleEnter (sampleMachine.c_str 0) 'B')).addEvents
              [TraceEvent.ctor sampleEnter "tick" 'I']) ∧
        sampleMachine.c_str 0 = "main" ∧ sampleAfterBody.c_str 0 = "main") ∧
      (((TraceEvent.ctor sampleEnter (sampleMachine.c_str 0) 'B').name =
            sampleMachine.c_str 0 ∧
          (TraceEvent.ctor sampleEnter (sampleMachine.c_str 0) 'B').ph = 'B' ∧
          (TraceEvent.ctor sampleLeave (sampleAfterBody.c_str 0) 'E').name =
            sampleAfterBody.c_str 0 ∧
          (TraceEvent.ctor sampleLeave (sampleAfterBody.c_str 0) 'E').ph = 'E') ∧
        (sampleAfterBody.c_str 0 = sampleMachine.c_str 0 →
          (TraceEvent.ctor sampleLeave (sampleAfterBody.c_str 0) 'E').name =
            (TraceEvent.ctor sampleEnter (sampleMachine.c_str 0) 'B').name) ∧
        ScopedTraceEvent.ctor sampleEnter 0 sampleMachine =
          some ({ name := 0 },
            { sampleMachine with
              world := { sampleWorld with
                g_tracer_ := some (sampleTracer.AddEvent
                  (TraceEvent.ctor sampleEnter (sampleMachine.c_str 0) 'B')) } }) ∧
        (∀ (self : ScopedTraceEvent) (m1 : Machine) (t1 : Tracer),
          m1.world.FLAGS_tracing_enable = true → m1.world.g_tracer_ = some t1 →
          ScopedTraceEvent.dtor sampleLeave self m1 =
            some { m1 with
              world := { m1.world with
                g_tracer_ :=
                  some (t1.AddEvent
                    (TraceEvent.ctor sampleLeave (m1.c_str self.name) 'E')) } }) ∧
        SCOPED_TRACE sampleEnter sampleLeave 0 sampleBody sampleMachine =
          some { sampleAfterBody with
            world := { sampleAfterBody.world with
              g_tracer_ := some (sampleTracer.addEvents
                ((TraceEvent.ctor sampleEnter (sampleMachine.c_str 0) 'B' ::
                    [TraceEvent.ctor sampleEnter "tick" 'I']) ++
                  [TraceEvent.ctor sampleLeave (sampleAfterBody.c_str 0) 'E'])) } } ∧
        (sampleTracer.addEvents
            ((TraceEvent.ctor sampleEnter (sampleMachine.c_str 0) 'B' ::
                [TraceEvent.ctor sampleEnter "tick" 'I']) ++
              [TraceEvent.ctor sampleLeave (sampleAfterBody.c_str 0) 'E'])).recorded =
          sampleTracer.recorded ++
            [(TraceEvent.ctor sampleEnter (sampleMachine.c_str 0) 'B').ToString] ++
            [TraceEvent.ctor sampleEnter "tick" 'I'].map TraceEvent.ToString ++
            [(TraceEvent.ctor sampleLeave (sampleAfterBody.c_str 0) 'E').ToString]) :=
  ⟨⟨rfl, rfl, rfl, rfl, rfl, rfl, rfl⟩,
    scoped_trace_brackets sampleMachine sampleAfterBody
      { sampleWorld with g_tracer_ := some sampleTracer } sampleTracer rfl rfl
      sampleEnter sampleLeave 0 sampleBody [TraceEvent.ctor sampleEnter "tick" 'I']
      rfl rfl rfl⟩

/-! ### Tracing switched off -/

/-- C11: with the enable flag off, `TRACE_EVENT` and the constructor and
destructor of `ScopedTraceEvent` return the state as it was: the singleton
pointer is not set, no object receives an event and no stream is written;
a scope whose body leaves the flag off ends in the state its body reached. -/
theorem disabled_is_noop (w : World) (hoff : w.FLAGS_tracing_enable = false)
    (env leave : Env) (name : String) (phase : Char) (c_str : Nat → String)
    (ptr : Nat) (self : ScopedTraceEvent) (body : Machine → Option Machine) :
    TRACE_EVENT env name phase w = some w ∧
      ScopedTraceEvent.ctor env ptr { world := w, c_str := c_str } =
        some ({ name := ptr }, { world := w, c_str := c_str }) ∧
      ScopedTraceEvent.dtor leave self { world := w, c_str := c_str } =
        some { world := w, c_str := c_str } ∧
      (∀ m1 : Machine, body { world := w, c_str := c_str } = some m1 →
        m1.world.FLAGS_tracing_enable = false →
        SCOPED_TRACE env leave ptr body { world := w, c_str := c_str } = some m1) := by
  have h : ∀ (ev : Env) (n : String) (p : Char) (w1 : World),
      w1.FLAGS_tracing_enable = false → TRACE_EVENT ev n p w1 = some w1 := by
    intro ev n p w1 h1
    simp [TRACE_EVENT, h1]
  have hctor : ScopedTraceEvent.ctor env ptr { world := w, c_str := c_str } =
      some ({ name := ptr }, { world := w, c_str := c_str }) := by
    simp [ScopedTraceEvent.ctor, h env _ 'B' w hoff]
  have hdtor : ∀ (s : ScopedTraceEvent) (m1 : Machine),
      m1.world.FLAGS_tracing_enable = false →
      ScopedTraceEvent.dtor leave s m1 = some m1 := by
    intro s m1 h1
    simp [ScopedTraceEvent.dtor, h leave _ 'E' m1.world h1]
  refine ⟨h env name phase w hoff, hctor, hdtor self _ hoff, ?_⟩
  intro m1 hb h1
  rw [SCOPED_TRACE, hctor, Option.some_bind]
  simp only
  rw [hb, Option.some_bind, hdtor _ m1 h1]

/-- Witness of C11: a process started without the enable flag; nothing is
created, `g_tracer_` stays null. -/
theorem disabled_is_noop_witness :
    sampleWorldOff.FLAGS_tracing_enable = false ∧
      (TRACE_EVENT sampleEnter "main" 'I' sampleWorldOff = some sampleWorldOff ∧
        ScopedTraceEvent.ctor sampleEnter 0
            { world := sampleWorldOff, c_str := sampleMemory } =
          some ({ name := 0 }, { world := sampleWorldOff, c_str := sampleMemory }) ∧
        ScopedTraceEvent.dtor sampleLeave { name := 0 }
            { world := sampleWorldOff, c_str := sampleMemory } =
          some { world := sampleWorldOff, c_str := sampleMemory } ∧
        (∀ m1 : Machine,
          sampleBody { world := sampleWorldOff, c_str := sampleMemory } = some m1 →
          m1.world.FLAGS_tracing_enable = false →
          SCOPED_TRACE sampleEnter sampleLeave 0 sampleBody
              { world := sampleWorldOff, c_str := sampleMemory } = some m1)) ∧
      sampleWorldOff.g_tracer_ = none :=
  ⟨rfl,
    disabled_is_noop sampleWorldOff rfl sampleEnter sampleLeave "main" 'I' sampleMemory 0
      { name := 0 } sampleBody,
    rfl⟩

/-! ### The file between flushes -/

/-- Putting a separator between the elements of the concatenation of two
non-empty lists puts one between the two lists as well. -/
theorem intersperse_append (s : String) (l₁ l₂ : List String) (h₁ : l₁ ≠ [])
    (h₂ : l₂ ≠ []) :
    (l₁ ++ l₂).intersperse s = l₁.intersperse s ++ s :: l₂.intersperse s := by
  induction l₁ with
  | nil => exact absurd rfl h₁
  | cons a as ih =>
    cases as with
    | nil =>
      cases l₂ with
      | nil => exact absurd rfl h₂
      | cons b bs => simp [List.intersperse]
    | cons a2 as2 =>
      have := ih (by simp)
      simp only [List.cons_append, List.intersperse] at this
      show a :: s :: List.intersperse s (a2 :: (as2 ++ l₂)) = _
      rw [this]
      simp [List.intersperse]

/-- Joining two non-empty lists with a separator. -/
theorem intercalate_append (s : String) (l₁ l₂ : List String) (h₁ : l₁ ≠ [])
    (h₂ : l₂ ≠ []) :
    s.intercalate (l₁ ++ l₂) = s.intercalate l₁ ++ s ++ s.intercalate l₂ := by
  rw [← join_intersperse, ← join_intersperse, ← join_intersperse,
    intersperse_append s l₁ l₂ h₁ h₂, join_append, join_cons, String.append_assoc]

/-- Joining the empty list gives the empty string. -/
theorem intercalate_nil (s : String) : s.intercalate [] = "" := rfl

namespace Tracer

/-- The content of the file after one `WriteRecords`. -/
theorem WriteRecords_file_eq (t : Tracer) :
    t.WriteRecords.file =
      t.file ++ (if t.num_events_written_ = 0 then "[" else ",") ++
        ",".intercalate (t.events_.map TraceEvent.ToString) := by
  rw [WriteRecords_eq]
  simp only [file]
  rw [join_append, join_cons, join_intersperse, String.append_assoc]
  by_cases h : t.num_events_written_ = 0 <;> simp [h]

/-- The event chunks on the stream after one `WriteRecords`. -/
theorem WriteRecords_written (t : Tracer) :
    t.WriteRecords.written = t.written ++ t.events_.map TraceEvent.ToString := by
  have hd : isDelimiter (if t.num_events_written_ ≠ 0 then "," else "[") = true := by
    split <;> decide
  rw [WriteRecords_eq]
  simp only [written, List.filter_append, List.filter_cons, hd, filter_intersperse]
  simp

/-- An append that flushes is `WriteRecords` on the buffer with the new
event, followed by the clearing of the buffer; one that does not flush only
extends the buffer. -/
theorem AddEvent_cases (t : Tracer) (e : TraceEvent) :
    (t.events_.length + 1 ≥ t.tracing_buffer_size_ →
        t.AddEvent e =
          { ({ t with events_ := t.events_ ++ [e] } : Tracer).WriteRecords with
            events_ := [] }) ∧
      (t.events_.length + 1 < t.tracing_buffer_size_ →
        t.AddEvent e = { t with events_ := t.events_ ++ [e] }) := by
  constructor
  · intro h
    simp [AddEvent, h]
  · intro h
    have : ¬ (t.tracing_buffer_size_ ≤ t.events_.length + 1) := by omega
    simp [AddEvent, this]

/-- A new object is consistent. -/
theorem Consistent.init (filename : String) (c : Nat) :
    (Tracer.init filename c).Consistent :=
  ⟨by simp [Tracer.init], by simp [Tracer.init, written], by simp [Tracer.init, file, String.join]⟩

/-- One flush keeps the counter equal to the number of event chunks, and
leaves the content the bracket followed by all event chunks joined by
commas, provided the buffer is not empty. -/
theorem Consistent.WriteRecords (t : Tracer) (h : t.Consistent) (hne : t.events_ ≠ []) :
    t.WriteRecords.num_events_written_ ≠ 0 ∧
      t.WriteRecords.fp_ ≠ [] ∧
      t.WriteRecords.num_events_written_ = t.WriteRecords.written.length ∧
      t.WriteRecords.file = "[" ++ ",".intercalate t.WriteRecords.written := by
  have hlen : 0 < t.events_.length := List.length_pos.mpr hne
  have hmap : t.events_.map TraceEvent.ToString ≠ [] := by simpa using hne
  refine ⟨?_, ?_, ?_, ?_⟩
  · rw [WriteRecords_eq]; simp only; omega
  · rw [WriteRecords_eq]; simp
  · rw [WriteRecords_written, WriteRecords_eq, List.length_append, List.length_map]
    simp only
    rw [h.count]
  · rw [WriteRecords_file_eq, WriteRecords_written, h.content]
    by_cases h0 : t.num_events_written_ = 0
    · have hw : t.written = [] := by
        have := h.count
        rw [h0] at this
        exact List.length_eq_zero.mp this.symm
      simp [h0, hw]
    · have hw : t.written ≠ [] := by
        intro hw
        have := h.count
        rw [hw] at this
        exact h0 this
      rw [if_neg h0, if_neg h0, intercalate_append _ _ _ hw hmap]
      simp [String.append_assoc]

/-- An append keeps the object consistent. -/
theorem Consistent.AddEvent (t : Tracer) (e : TraceEvent) (h : t.Consistent) :
    (t.AddEvent e).Consistent := by
  by_cases hfull : t.events_.length + 1 ≥ t.tracing_buffer_size_
  · rw [(AddEvent_cases t e).1 hfull]
    have hc : ({ t with events_ := t.events_ ++ [e] } : Tracer).Consistent :=
      ⟨h.zero_iff, h.count, h.content⟩
    obtain ⟨h1, h2, h3, h4⟩ := Consistent.WriteRecords _ hc (by simp)
    refine ⟨?_, ?_, ?_⟩
    · exact ⟨fun h0 => absurd h0 h1, fun h0 => absurd h0 h2⟩
    · exact h3
    · show Tracer.file _ = _
      simp only [if_neg h1]
      exact h4
  · rw [(AddEvent_cases t e).2 (by omega)]
    exact ⟨h.zero_iff, h.count, h.content⟩

/-- Every object reached from a new one by appends is consistent. -/
theorem Consistent.addEvents (t : Tracer) (es : List TraceEvent) (h : t.Consistent) :
    (t.addEvents es).Consistent := by
  induction es generalizing t with
  | nil => exact h
  | cons e es ih => rw [addEvents_cons]; exact ih _ (Consistent.AddEvent t e h)

/-- The event chunks written and the events buffered, after appends to a
new object, are the appended events. -/
theorem addEvents_init_written (filename : String) (c : Nat) (es : List TraceEvent) :
    ((init filename c).addEvents es).written ++
        ((init filename c).addEvents es).events_.map TraceEvent.ToString =
      es.map TraceEvent.ToString := by
  have h := addEvents_written (init filename c) es
  simpa [written, init] using h

end Tracer

/-! ### One flush and one append, on the file -/

/-- C12: `WriteRecords` on an object with buffer b, stream content s and
counter w leaves the stream content s followed by an opening bracket when w
is zero and by a comma otherwise, followed by the serialisations of b joined
by commas with none after the last; the counter becomes w + |b| and the
buffer is untouched.  On an object reached from a new one by appends, w is
zero exactly when nothing has been written, so the first write of the file
starts with the bracket and every later flush with a comma. -/
theorem flush_appends_delimited_batch (t : Tracer) (filename : String) (capacity : Nat)
    (events : List TraceEvent) :
    (t.WriteRecords.file =
        t.file ++ (if t.num_events_written_ = 0 then "[" else ",") ++
          ",".intercalate (t.events_.map TraceEvent.ToString) ∧
      t.WriteRecords.fp_ =
        t.fp_ ++ (if t.num_events_written_ = 0 then "[" else ",") ::
          (t.events_.map TraceEvent.ToString).intersperse "," ∧
      t.WriteRecords.num_events_written_ = t.num_events_written_ + t.events_.length ∧
      t.WriteRecords.events_ = t.events_) ∧
    (((Tracer.init filename capacity).addEvents events).WriteRecords.file =
      ((Tracer.init filename capacity).addEvents events).file ++
        (if ((Tracer.init filename capacity).addEvents events).fp_ = [] then "[" else ",") ++
        ",".intercalate
          (((Tracer.init filename capacity).addEvents events).events_.map
            TraceEvent.ToString)) := by
  refine ⟨⟨Tracer.WriteRecords_file_eq t, ?_, ?_, ?_⟩, ?_⟩
  · rw [Tracer.WriteRecords_eq]
    by_cases h : t.num_events_written_ = 0 <;> simp [h]
  · rw [Tracer.WriteRecords_eq]
  · rw [Tracer.WriteRecords_eq]
  · have hc := Tracer.Consistent.addEvents _ events (Tracer.Consistent.init filename capacity)
    rw [Tracer.WriteRecords_file_eq]
    by_cases h : ((Tracer.init filename capacity).addEvents events).num_events_written_ = 0
    · rw [if_pos h, if_pos (hc.zero_iff.mp h)]
    · rw [if_neg h, if_neg (fun h0 => h (hc.zero_iff.mpr h0))]

/-- C13: on an object t reached from a new one by appends, whatever the
capacity (those of at least one included), with buffer b: when |b| + 1 is below the capacity, `AddEvent e`
leaves stream and counter as they were and the buffer becomes b followed by
e; otherwise it is `WriteRecords` on b followed by e, which extends the file
by the separator and these events joined by commas, and the buffer is left
empty, so that the next event is appended to an empty buffer: it is the only
buffered event afterwards when the capacity is at least two, and is written
on its own at once when the capacity is one.  At capacity two, after A and B
the file is "[A,B", and after a third event the buffer holds that event
only. -/
theorem AddEvent_step (filename : String) (capacity : Nat) (events : List TraceEvent)
    (t : Tracer) (e : TraceEvent)
    (hreach : t = (Tracer.init filename capacity).addEvents events) :
    (t.events_.length + 1 < capacity →
        (t.AddEvent e).fp_ = t.fp_ ∧
          (t.AddEvent e).num_events_written_ = t.num_events_written_ ∧
          (t.AddEvent e).events_ = t.events_ ++ [e]) ∧
      (t.events_.length + 1 ≥ capacity →
        t.AddEvent e =
            { ({ t with events_ := t.events_ ++ [e] } : Tracer).WriteRecords with
              events_ := [] } ∧
          (t.AddEvent e).file =
            t.file ++ (if t.num_events_written_ = 0 then "[" else ",") ++
              ",".intercalate ((t.events_ ++ [e]).map TraceEvent.ToString) ∧
          (t.AddEvent e).num_events_written_ =
            t.num_events_written_ + (t.events_.length + 1) ∧
          (t.AddEvent e).events_ = [] ∧
          ∀ next : TraceEvent,
            (2 ≤ capacity → ((t.AddEvent e).AddEvent next).events_ = [next]) ∧
            (capacity = 1 →
              ((t.AddEvent e).AddEvent next).events_ = [] ∧
                ((t.AddEvent e).AddEvent next).fp_ =
                  (t.AddEvent e).fp_ ++ [",", next.ToString])) ∧
      (((Tracer.init "/tmp/trace.json" 2).addEvents [sampleA, sampleB]).file =
          "[" ++ sampleA.ToString ++ "," ++ sampleB.ToString ∧
        ((Tracer.init "/tmp/trace.json" 2).addEvents
            [sampleA, sampleB, sampleQuote]).events_ = [sampleQuote]) := by
  have hsize : t.tracing_buffer_size_ = capacity := by
    rw [hreach, Tracer.addEvents_size]; rfl
  refine ⟨?_, ?_, by decide⟩
  · intro h
    rw [(Tracer.AddEvent_cases t e).2 (by omega)]
    exact ⟨rfl, rfl, rfl⟩
  · intro h
    have hfull : t.events_.length + 1 ≥ t.tracing_buffer_size_ := by omega
    have hcase := (Tracer.AddEvent_cases t e).1 hfull
    have hnum : (t.AddEvent e).num_events_written_ =
        t.num_events_written_ + (t.events_.length + 1) := by
      rw [Tracer.AddEvent_eq, if_pos hfull]
    have hbuf : (t.AddEvent e).events_ = [] := by
      rw [Tracer.AddEvent_eq, if_pos hfull]
    have hsize2 : (t.AddEvent e).tracing_buffer_size_ = capacity := by
      rw [Tracer.AddEvent_size, hsize]
    refine ⟨hcase, ?_, hnum, hbuf, ?_⟩
    · rw [hcase]
      exact Tracer.WriteRecords_file_eq ({ t with events_ := t.events_ ++ [e] } : Tracer)
    · intro next
      constructor
      · intro h2
        rw [(Tracer.AddEvent_cases (t.AddEvent e) next).2 (by rw [hbuf, hsize2]; simpa using h2)]
        simp [hbuf]
      · intro h1
        rw [Tracer.AddEvent_eq (t.AddEvent e) next,
          if_pos (by rw [hbuf, hsize2, h1]; simp), hbuf]
        have hne : (t.AddEvent e).num_events_written_ ≠ 0 := by rw [hnum]; omega
        simp [hne]

/-- Witness of C13: capacity two, one event buffered, a second one
appended, which fills the buffer. -/
theorem AddEvent_step_witness :
    (Tracer.init "/tmp/trace.json" 2).addEvents [sampleA] =
        (Tracer.init "/tmp/trace.json" 2).addEvents [sampleA] ∧
      ((Tracer.init "/tmp/trace.json" 2).addEvents [sampleA]).events_.length + 1 ≥ 2 ∧
      (((Tracer.init "/tmp/trace.json" 2).addEvents [sampleA]).AddEvent sampleB).file =
        ((Tracer.init "/tmp/trace.json" 2).addEvents [sampleA]).file ++
          (if ((Tracer.init "/tmp/trace.json" 2).addEvents
              [sampleA]).num_events_written_ = 0 then "[" else ",") ++
          ",".intercalate
            ((((Tracer.init "/tmp/trace.json" 2).addEvents [sampleA]).events_ ++
              [sampleB]).map TraceEvent.ToString) ∧
      (((Tracer.init "/tmp/trace.json" 2).addEvents [sampleA]).AddEvent sampleB).events_ =
        [] ∧
      ((((Tracer.init "/tmp/trace.json" 2).addEvents [sampleA]).AddEvent sampleB).AddEvent
          sampleQuote).events_ = [sampleQuote] :=
  have h := (AddEvent_step "/tmp/trace.json" 2 [sampleA]
    ((Tracer.init "/tmp/trace.json" 2).addEvents [sampleA]) sampleB rfl).2.1 (by decide)
  ⟨rfl, by decide, h.2.1, h.2.2.2.1, (h.2.2.2.2 sampleQuote).1 (by decide)⟩

/-! ### The counter and the stream -/

/-- C14: on every object reached from a new one by appends, the counter of
written events is the number of event serialisations on the stream, and it
is zero exactly when nothing has been written: the stream has received no
chunk and the file is empty; once it is not zero the file is the opening
bracket followed by the written events joined by commas. -/
theorem counter_tracks_stream (filename : String) (capacity : Nat)
    (events : List TraceEvent) :
    ((Tracer.init filename capacity).addEvents events).num_events_written_ =
        ((Tracer.init filename capacity).addEvents events).written.length ∧
      (((Tracer.init filename capacity).addEvents events).num_events_written_ = 0 ↔
        ((Tracer.init filename capacity).addEvents events).fp_ = []) ∧
      (((Tracer.init filename capacity).addEvents events).num_events_written_ = 0 ↔
        ((Tracer.init filename capacity).addEvents events).file = "") ∧
      (((Tracer.init filename capacity).addEvents events).num_events_written_ ≠ 0 →
        ((Tracer.init filename capacity).addEvents events).file =
          "[" ++ ",".intercalate
            ((Tracer.init filename capacity).addEvents events).written) := by
  have hc := Tracer.Consistent.addEvents _ events (Tracer.Consistent.init filename capacity)
  refine ⟨hc.count, hc.zero_iff, ⟨fun h => ?_, fun h => ?_⟩, fun h => ?_⟩
  · rw [hc.content, if_pos h]
  · by_contra h0
    rw [hc.content, if_neg h0] at h
    have := congrArg String.length h
    simp only [String.length_append] at this
    have h1 : "[".length = 1 := rfl
    have h2 : "".length = 0 := rfl
    omega
  · rw [hc.content, if_neg h]

/-! ### The file after teardown -/

namespace Tracer

/-- The content of the file after the destructor. -/
theorem dtor_file (t : Tracer) :
    t.dtor.file =
      t.file ++ (if t.num_events_written_ = 0 then "[" else ",") ++
        ",".intercalate (t.events_.map TraceEvent.ToString) ++ "]" := by
  have h : t.dtor.fp_ = t.WriteRecords.fp_ ++ ["]"] := by
    rw [dtor_eq, WriteRecords_eq]; simp
  have hf := WriteRecords_file_eq t
  simp only [file] at hf ⊢
  rw [h, join_append, hf, join_cons]
  simp [String.join]

end Tracer

/-- A string followed by a comma and a bracket is not the string followed by
the bracket. -/
theorem append_comma_ne (s : String) : s ++ "," ++ "]" ≠ s ++ "]" := by
  intro h
  have := congrArg String.length h
  simp only [String.length_append] at this
  have h1 : ",".length = 1 := rfl
  omega

/-- C15: for a capacity of at least one and N appended events, the file
after teardown is the opening bracket, the serialised events in append order
joined by commas, a further comma when N is positive and the capacity
divides N, and the closing bracket; so it is the bracketed, comma-joined
list, the same for every capacity, exactly when N is not a positive multiple
of the capacity. -/
theorem teardown_file (filename : String) (capacity : Nat)
    (events : List TraceEvent) (hcap : 1 ≤ capacity) :
    ((Tracer.init filename capacity).addEvents events).dtor.file =
        "[" ++ ",".intercalate (events.map TraceEvent.ToString) ++
          (if 0 < events.length ∧ capacity ∣ events.length then "," else "") ++ "]" ∧
      (((Tracer.init filename capacity).addEvents events).dtor.file =
          "[" ++ ",".intercalate (events.map TraceEvent.ToString) ++ "]" ↔
        ¬ (0 < events.length ∧ capacity ∣ events.length)) := by
  have hc := Tracer.Consistent.addEvents _ events (Tracer.Consistent.init filename capacity)
  have hshape := (Tracer.addEvents_init_shape filename capacity hcap events).1
  have hw := Tracer.addEvents_init_written filename capacity events
  have hn := Tracer.addEvents_count (Tracer.init filename capacity) events
  have hn2 : ((Tracer.init filename capacity).addEvents events).num_events_written_ +
      ((Tracer.init filename capacity).addEvents events).events_.length = events.length := by
    simpa [Tracer.init] using hn
  have hmodlt : events.length % capacity < capacity := Nat.mod_lt _ (by omega)
  have hfile : ((Tracer.init filename capacity).addEvents events).dtor.file =
      "[" ++ ",".intercalate (events.map TraceEvent.ToString) ++
        (if 0 < events.length ∧ capacity ∣ events.length then "," else "") ++ "]" := by
    rw [Tracer.dtor_file, hc.content]
    by_cases h0 : ((Tracer.init filename capacity).addEvents events).num_events_written_ = 0
    · have hwr : ((Tracer.init filename capacity).addEvents events).written = [] := by
        have := hc.count
        rw [h0] at this
        exact List.length_eq_zero.mp this.symm
      have hlt : events.length < capacity := by omega
      have hcond : ¬ (0 < events.length ∧ capacity ∣ events.length) := by
        rintro ⟨hpos, hdvd⟩
        exact absurd (Nat.le_of_dvd hpos hdvd) (by omega)
      rw [hwr, List.nil_append] at hw
      rw [if_pos h0, if_pos h0, if_neg hcond, hw]
      apply String.ext
      simp
    · have hwr : ((Tracer.init filename capacity).addEvents events).written ≠ [] := by
        intro hwr
        have := hc.count
        rw [hwr] at this
        exact h0 this
      rw [if_neg h0, if_neg h0]
      by_cases hb : ((Tracer.init filename capacity).addEvents events).events_ = []
      · have hmod : events.length % capacity = 0 := by rw [← hshape, hb]; rfl
        have hcond : 0 < events.length ∧ capacity ∣ events.length :=
          ⟨by omega, Nat.dvd_of_mod_eq_zero hmod⟩
        rw [hb, List.map_nil, List.append_nil] at hw
        rw [if_pos hcond, hb, hw, List.map_nil, intercalate_nil]
        apply String.ext
        simp
      · have hmod : 0 < events.length % capacity := by
          rw [← hshape]; exact List.length_pos.mpr hb
        have hcond : ¬ (0 < events.length ∧ capacity ∣ events.length) := by
          rintro ⟨_, hdvd⟩
          have := Nat.mod_eq_zero_of_dvd hdvd
          omega
        have hmap : ((Tracer.init filename capacity).addEvents events).events_.map
            TraceEvent.ToString ≠ [] := by simpa using hb
        rw [if_neg hcond, ← hw, intercalate_append _ _ _ hwr hmap]
        apply String.ext
        simp
  refine ⟨hfile, ?_⟩
  rw [hfile]
  by_cases hcond : 0 < events.length ∧ capacity ∣ events.length
  · rw [if_pos hcond]
    constructor
    · intro h
      exact absurd h (append_comma_ne _)
    · intro h
      exact absurd hcond h
  · rw [if_neg hcond]
    constructor
    · intro _
      exact hcond
    · intro _
      apply String.ext
      simp

/-- Witness of C15: capacity two and two events, where the further comma
appears. -/
theorem teardown_file_witness :
    1 ≤ 2 ∧
      (((Tracer.init "/tmp/trace.json" 2).addEvents [sampleA, sampleB]).dtor.file =
          "[" ++ ",".intercalate ([sampleA, sampleB].map TraceEvent.ToString) ++
            (if 0 < [sampleA, sampleB].length ∧ 2 ∣ [sampleA, sampleB].length then ","
              else "") ++ "]" ∧
        (((Tracer.init "/tmp/trace.json" 2).addEvents [sampleA, sampleB]).dtor.file =
            "[" ++ ",".intercalate ([sampleA, sampleB].map TraceEvent.ToString) ++ "]" ↔
          ¬ (0 < [sampleA, sampleB].length ∧ 2 ∣ [sampleA, sampleB].length))) :=
  ⟨by decide, teardown_file "/tmp/trace.json" 2 [sampleA, sampleB] (by decide)⟩

/-! ### Identifiers printed as unsigned -/

/-- The unsigned conversion of an `int`, as a remainder. -/
theorem emod_eq_asUnsigned32 (v : Int) (h1 : -2 ^ 31 ≤ v) (h2 : v < 2 ^ 31) :
    v % 2 ^ 32 = asUnsigned32 v := by
  unfold asUnsigned32
  split <;> omega

/-- C16: for an event whose fields are in the ranges of their types,
`ToString` prints ts as the signed decimal it is, and pid and tid after the
unsigned conversion: a negative tid (or pid) is printed as tid + 2 ^ 32
(pid + 2 ^ 32), a non-negative one as it is, so the printed pid and tid lie
in [0, 2 ^ 32). -/
theorem ToString_unsigned_ids (e : TraceEvent) (hrange : e.InRange) :
    e.ToString =
        "\x7b\"name\": \"" ++ e.name ++ "\", \"ph\": \"" ++ String.singleton e.ph ++
          "\", \"ts\": " ++ toString e.ts ++
          ", \"pid\": " ++ toString (asUnsigned32 e.pid) ++
          ", \"tid\": " ++ toString (asUnsigned32 e.tid) ++ "\x7d" ∧
      (e.pid < 0 → asUnsigned32 e.pid = e.pid + 2 ^ 32) ∧
      (e.tid < 0 → asUnsigned32 e.tid = e.tid + 2 ^ 32) ∧
      (0 ≤ asUnsigned32 e.pid ∧ asUnsigned32 e.pid < 2 ^ 32) ∧
      (0 ≤ asUnsigned32 e.tid ∧ asUnsigned32 e.tid < 2 ^ 32) := by
  obtain ⟨_, _, hp1, hp2, ht1, ht2⟩ := hrange
  have hp := emod_eq_asUnsigned32 e.pid hp1 hp2
  have ht := emod_eq_asUnsigned32 e.tid ht1 ht2
  have hp0 : 0 ≤ asUnsigned32 e.pid := by unfold asUnsigned32; split <;> omega
  have ht0 : 0 ≤ asUnsigned32 e.tid := by unfold asUnsigned32; split <;> omega
  refine ⟨?_, ?_, ?_, ⟨hp0, ?_⟩, ⟨ht0, ?_⟩⟩
  · rw [TraceEvent.ToString_eq, hp, ht, toString_toNat _ hp0, toString_toNat _ ht0]
  · intro h; simp [asUnsigned32, h]
  · intro h; simp [asUnsigned32, h]
  · unfold asUnsigned32; split <;> omega
  · unfold asUnsigned32; split <;> omega

/-- Witness of C16: an event constructed on a thread whose hash narrows to
the `int` -1, at a negative clock reading: tid is printed as 4294967295 and
ts as -3. -/
theorem ToString_unsigned_ids_witness :
    sampleNegative.InRange ∧
      (sampleNegative.tid = -1 ∧ sampleNegative.ts = -3 ∧
        sampleNegative.ToString =
          "\x7b\"name\": \"main\", \"ph\": \"B\", \"ts\": -3, \"pid\": 4242, \"tid\": 4294967295\x7d") ∧
      (sampleNegative.ToString =
          "\x7b\"name\": \"" ++ sampleNegative.name ++ "\", \"ph\": \"" ++
            String.singleton sampleNegative.ph ++
            "\", \"ts\": " ++ toString sampleNegative.ts ++
            ", \"pid\": " ++ toString (asUnsigned32 sampleNegative.pid) ++
            ", \"tid\": " ++ toString (asUnsigned32 sampleNegative.tid) ++ "\x7d" ∧
        (sampleNegative.pid < 0 →
          asUnsigned32 sampleNegative.pid = sampleNegative.pid + 2 ^ 32) ∧
        (sampleNegative.tid < 0 →
          asUnsigned32 sampleNegative.tid = sampleNegative.tid + 2 ^ 32) ∧
        (0 ≤ asUnsigned32 sampleNegative.pid ∧ asUnsigned32 sampleNegative.pid < 2 ^ 32) ∧
        (0 ≤ asUnsigned32 sampleNegative.tid ∧ asUnsigned32 sampleNegative.tid < 2 ^ 32)) :=
  ⟨by decide, ⟨by decide, by decide, by decide⟩,
    ToString_unsigned_ids sampleNegative (by decide)⟩

end Tracing
